import Mathlib

/-!
Shallow embedding of the BTC price relay server (src/server/nostr-relay.ts).

JavaScript numbers are modelled as rationals (ℚ).  NaN, where a code path can
produce one (the `Number(...)` coercion of a non-numeric value), is modelled as
`none` in `Option ℚ`; every JS comparison against NaN is false, which matches
the `Option` handling at each use site below.  JSON values are modelled by the
`Json` inductive; the outcome of `safeJsonParse` appears as an `Option Json`
parameter (`none` = parse failure, which the code turns into `{}` via `?? {}`).
Wall-clock times (`Date.now()` milliseconds) are explicit ℚ parameters.
-/

namespace Relay

/-- The price-request kind, from the shared schema module
(src/unnamed/part_001: `export const KIND_PRICE_REQ = 38000`). -/
def KIND_PRICE_REQ : Int := 38000

/-- The price-response kind, from the shared schema module
(src/unnamed/part_001: `export const KIND_PRICE_RES = 38001`). -/
def KIND_PRICE_RES : Int := 38001

/-- The price-error kind, from the shared schema module
(src/unnamed/part_001: `export const KIND_PRICE_ERR = 38002`). -/
def KIND_PRICE_ERR : Int := 38002

/-- JSON values, as produced by `JSON.parse`. -/
inductive Json where
  | null
  | bool (b : Bool)
  | num (q : ℚ)
  | str (s : String)
  | arr (elems : List Json)
  | obj (fields : List (String × Json))

/-- JS property access `body.k` on a parsed JSON value: a field of an object,
`undefined` (here `none`) otherwise. -/
def Json.lookup : Json → String → Option Json
  | .obj fields, k => fields.lookup k
  | _, _ => none

/-- The JS `??` operator lets both `undefined` (`none`) and `null` fall
through to the right operand. -/
def jsCoalesce : Option Json → Option Json
  | some .null => none
  | x => x

/-- JS strict equality `j === s` between an arbitrary value and a string. -/
def jsStrEq (j : Json) (s : String) : Bool :=
  match j with
  | .str t => t == s
  | _ => false

/-- Decimal rendering of a rational for the JS `String(...)` coercion.  The
values coerced in this development are integral; the non-integral fallback
(`num/den`) deviates from the JS decimal rendering but is never exercised. -/
def ratToJsString (q : ℚ) : String :=
  if q.den = 1 then toString q.num else toString q.num ++ "/" ++ toString q.den

/-- JS `String(x)` coercion (`String(body.method ?? "trimmed_mean")`). -/
def jsToString : Json → String
  | .null => "null"
  | .bool true => "true"
  | .bool false => "false"
  | .num q => ratToJsString q
  | .str s => s
  | .arr l => String.intercalate ","
      (l.map fun j => match j with
        | .null => ""
        | .bool true => "true"
        | .bool false => "false"
        | .num q => ratToJsString q
        | .str s => s
        | _ => "")
  | .obj _ => "[object Object]"

/-- Digit-string value used by the decimal number parser. -/
def digitsToNat (l : List Char) : ℕ :=
  l.foldl (fun a c => a * 10 + (c.toNat - 48)) 0

/-- JS `Number(s)` on a string: trimmed empty string is 0; a plain decimal
literal (optional sign, digits, optional fraction) parses to its value;
anything else is NaN (`none`).  Hexadecimal and exponent forms, which the
relay never receives in this development, are conservatively mapped to
`none`. -/
def jsParseNumber (s : String) : Option ℚ :=
  let t := s.trim
  if t = "" then some 0
  else
    let (sgn, body) : ℚ × List Char :=
      match t.data with
      | '-' :: r => (-1, r)
      | '+' :: r => (1, r)
      | r => (1, r)
    let ip := body.takeWhile Char.isDigit
    let rest := body.dropWhile Char.isDigit
    match rest with
    | [] => if ip = [] then none else some (sgn * digitsToNat ip)
    | '.' :: rest2 =>
      let fp := rest2.takeWhile Char.isDigit
      if rest2.dropWhile Char.isDigit ≠ [] then none
      else if ip = [] ∧ fp = [] then none
      else some (sgn * ((digitsToNat ip : ℚ) + (digitsToNat fp : ℚ) / (10 ^ fp.length)))
    | _ => none

/-- JS `Number(x)` coercion; `none` models NaN.  A one-element array coerces
through its element's string form, matched here for the primitive cases. -/
def jsToNumber : Json → Option ℚ
  | .num q => some q
  | .null => some 0
  | .bool true => some 1
  | .bool false => some 0
  | .str s => jsParseNumber s
  | .arr [] => some 0
  | .arr [.num q] => some q
  | .arr [.str s] => jsParseNumber s
  | .arr [.null] => some 0
  | .arr _ => none
  | .obj _ => none

/-- One upstream price sample (`PriceSample` in the shared schema). -/
structure PriceSample where
  source : String
  value : ℚ
  ts : ℚ
deriving DecidableEq, Repr

/-- `mean` from nostr-relay.ts: `values.reduce((a,b)=>a+b,0) / values.length`. -/
def mean (values : List ℚ) : ℚ :=
  values.sum / values.length

/-- `median` from nostr-relay.ts: sort ascending, middle element, or the
average of the two middle elements for even length. -/
def median (values : List ℚ) : ℚ :=
  let arr := values.mergeSort (fun a b => decide (a ≤ b))
  let mid := arr.length / 2
  if arr.length % 2 = 0 then (arr.getD (mid - 1) 0 + arr.getD mid 0) / 2
  else arr.getD mid 0

/-- The stable ascending sort `[...samples].sort((a,b)=>a.value-b.value)`. -/
def sortByValue (samples : List PriceSample) : List PriceSample :=
  samples.mergeSort (fun a b => decide (a.value ≤ b.value))

/-- Result record of `aggregate`. -/
structure AggResult where
  value : ℚ
  method : String
  used : List PriceSample
deriving DecidableEq, Repr

/-- `aggregate` from nostr-relay.ts lines 87-102.  The `throw` on an empty
sample list is the `Except.error` case. -/
def aggregate (samples : List PriceSample) (method : String) :
    Except String AggResult :=
  let values := samples.map (·.value)
  if values.length = 0 then .error "no samples"
  else if method = "trimmed_mean" ∧ samples.length ≥ 5 then
    let used := ((sortByValue samples).drop 1).dropLast
    .ok ⟨mean (used.map (·.value)), "trimmed_mean", used⟩
  else if samples.length ≥ 3 then .ok ⟨median values, "median", samples⟩
  else .ok ⟨mean values, "mean", samples⟩

/-- One token-bucket entry (`{ tokens, last }` in the `RateLimiter` map). -/
structure Bucket where
  tokens : ℚ
  last : ℚ
deriving DecidableEq, Repr

/-- One call of `RateLimiter.allow` for a single key: `prev` is the map entry
(`none` on a map miss, which initializes `(burst, nowMs)`); returns the
admit/deny decision and the bucket written back. -/
def allowStep (rps burst : ℚ) (prev : Option Bucket) (nowMs : ℚ) :
    Bool × Bucket :=
  let b := prev.getD ⟨burst, nowMs⟩
  let refilled := min burst (b.tokens + (nowMs - b.last) / 1000 * rps)
  if refilled < 1 then (false, ⟨refilled, nowMs⟩)
  else (true, ⟨refilled - 1, nowMs⟩)

/-- `Map.set` on the bucket table: replace the entry in place, or append. -/
def setKey (m : List (String × Bucket)) (k : String) (v : Bucket) :
    List (String × Bucket) :=
  if m.any (fun p => p.1 == k) then
    m.map (fun p => if p.1 == k then (k, v) else p)
  else m ++ [(k, v)]

/-- The `RateLimiter` class: refill rate, capacity, and the bucket table. -/
structure RateLimiter where
  rps : ℚ
  burst : ℚ
  buckets : List (String × Bucket)
deriving DecidableEq, Repr

/-- `RateLimiter.allow(key, nowMs)` (nostr-relay.ts lines 108-120). -/
def RateLimiter.allow (rl : RateLimiter) (key : String) (nowMs : ℚ) :
    Bool × RateLimiter :=
  let s := allowStep rl.rps rl.burst (rl.buckets.lookup key) nowMs
  (s.1, { rl with buckets := setKey rl.buckets key s.2 })

/-- Repeated `allow` calls for one key starting from an absent map entry,
returning the number of admitted calls. -/
def runAllowB (rps burst : ℚ) (b : Bucket) : List ℚ → ℕ × Bucket
  | [] => (0, b)
  | t :: ts =>
    let s := allowStep rps burst (some b) t
    let r := runAllowB rps burst s.2 ts
    ((if s.1 then 1 else 0) + r.1, r.2)

/-- Number of admitted calls among `times` for a key first seen at the head
call (fresh bucket), as produced by successive `allow` invocations. -/
def admittedCount (rps burst : ℚ) (times : List ℚ) : ℕ :=
  match times with
  | [] => 0
  | t :: ts =>
    let s := allowStep rps burst none t
    (if s.1 then 1 else 0) + (runAllowB rps burst s.2 ts).1

/-- A Nostr event as the relay stores it.  `content` is the raw string; the
price handler receives its `safeJsonParse` outcome separately. -/
structure NostrEvent where
  id : String
  pubkey : String
  created_at : ℚ
  kind : Int
  tags : List (List String)
  content : String
deriving DecidableEq, Repr

/-- `getTag` (nostr-relay.ts lines 33-38): first tag whose name matches and
whose second entry is truthy (present and non-empty). -/
def getTag (evt : NostrEvent) (name : String) : Option String :=
  (evt.tags.find? fun t =>
    t.head? == some name && t.getD 1 "" != "").map (fun t => t.getD 1 "")

/-- `storeEvent` (lines 203-206): append, then splice from the head down to
`maxStored` entries. -/
def storeEvent (maxStored : ℕ) (events : List NostrEvent) (evt : NostrEvent) :
    List NostrEvent :=
  let es := events ++ [evt]
  if es.length > maxStored then es.drop (es.length - maxStored) else es

/-- A subscription filter.  `since`/`until`/`limit` carry the numeric value
(`none` when absent); tag constraints are the `"#x"` entries. -/
structure NostrFilter where
  ids : Option (List String)
  kinds : Option (List Int)
  authors : Option (List String)
  since : Option ℚ
  untilTs : Option ℚ
  limit : Option ℚ
  tagFilters : List (String × List String)
deriving DecidableEq, Repr

/-- JS truthiness of a numeric field: `0` is falsy, so `since: 0` imposes no
constraint. -/
def truthyNum : Option ℚ → Option ℚ
  | some q => if q = 0 then none else some q
  | none => none

/-- `matchFilter` (lines 218-234). -/
def matchFilter (evt : NostrEvent) (f : NostrFilter) : Bool :=
  (match f.ids with | some ids => ids.contains evt.id | none => true) &&
  (match f.kinds with | some ks => ks.contains evt.kind | none => true) &&
  (match f.authors with | some as => as.contains evt.pubkey | none => true) &&
  (match truthyNum f.since with
   | some s => !(evt.created_at < s) | none => true) &&
  (match truthyNum f.untilTs with
   | some u => !(evt.created_at > u) | none => true) &&
  (f.tagFilters.all fun tc =>
    let hv := (evt.tags.filter (fun t => t.head? == some tc.1)).map
      (fun t => t.get? 1)
    tc.2.any (fun x => hv.contains (some x)))

/-- The per-filter limit `Math.min(Number(f.limit ?? 200), 2000)`. -/
def effLimit (f : NostrFilter) : ℚ :=
  min (f.limit.getD 200) 2000

/-- The collection loop of `queryEvents`: walk `l` (already newest-first),
keeping matches while the count stays below `lim`. -/
def collectMatches (f : NostrFilter) (lim : ℚ) :
    List NostrEvent → ℕ → List NostrEvent
  | [], _ => []
  | e :: rest, cnt =>
    if (cnt : ℚ) < lim then
      if matchFilter e f then e :: collectMatches f lim rest (cnt + 1)
      else collectMatches f lim rest cnt
    else []

/-- `queryEvents` (lines 236-248): per-filter newest-to-oldest collection,
concatenated across filters. -/
def queryEvents (events : List NostrEvent) (filters : List NostrFilter) :
    List NostrEvent :=
  (filters.map (fun f => collectMatches f (effLimit f) events.reverse 0)).flatten

/-- Outbound frames relevant to a `REQ` (lines 464-473). -/
inductive Frame where
  | event (subId : String) (e : NostrEvent)
  | eose (subId : String)
deriving DecidableEq, Repr

/-- Handling of a `REQ` message: backfill frames then a single EOSE. -/
def handleReqMsg (events : List NostrEvent) (subId : String)
    (filters : List NostrFilter) : List Frame :=
  (queryEvents events filters).map (Frame.event subId) ++ [Frame.eose subId]

/-- The process-wide price cache entry (`{ tsMs, samples }`). -/
structure CacheEntry where
  tsMs : ℚ
  samples : List PriceSample
deriving DecidableEq, Repr

/-- `cacheGet` (lines 128-133), with the TTL and clock explicit: the entry
together with its computed age, or `none` past the TTL. -/
def cacheGet (ttl : ℚ) (cache : Option CacheEntry) (nowMs : ℚ) :
    Option (CacheEntry × ℚ) :=
  match cache with
  | none => none
  | some e =>
    let ageMs := nowMs - e.tsMs
    if ageMs > ttl then none else some (e, ageMs)

/-- JS `String.prototype.length`: UTF-16 code units. -/
def jsStrLen (s : String) : ℕ :=
  (s.data.map (fun c => if c.toNat < 65536 then 1 else 2)).sum

/-- Size in bytes of the UTF-8 encoding of a decoded frame. -/
def jsByteLen (s : String) : ℕ :=
  (s.data.map Char.utf8Size).sum

/-- The inbound size gate (lines 319-322): the NOTICE sent when the frame is
over the limit, `none` when processing continues. -/
def frameGate (maxEventBytes : ℕ) (s : String) : Option (List String) :=
  if jsStrLen s > maxEventBytes then some ["NOTICE", "payload too large"]
  else none

/-- The recognized upstream source names (line 199). -/
def ALL_SOURCES : List String := ["coinbase", "kraken", "coingecko", "bitstamp"]

/-- Environment defaults (lines 7-16). -/
def MIN_QUORUM_default : ℕ := 3

/-- Default `CACHE_TTL_MS`. -/
def CACHE_TTL_MS_default : ℚ := 2000

/-- Default `MAX_REQUEST_MAXAGE_MS`. -/
def MAX_REQUEST_MAXAGE_MS_default : ℚ := 60000

/-- Default `MAX_EVENT_BYTES`. -/
def MAX_EVENT_BYTES_default : ℕ := 64000

/-- Default `MAX_STORED_EVENTS`. -/
def MAX_STORED_EVENTS_default : ℕ := 10000

/-- The request fields extracted by the price handler (lines 352-356 and
404-405).  `maxAgeMsReq` is `Number(body.maxAgeMs ?? 20000)` and `maxAgeMs`
its clamp by `MAX_REQUEST_MAXAGE_MS`; `none` models NaN. -/
structure ParsedReq where
  pair : Json
  method : String
  maxAgeMsReq : Option ℚ
  maxAgeMs : Option ℚ
  sources : List String

/-- Field extraction of the price handler.  `body?` is the `safeJsonParse`
outcome for `evt.content`. -/
def parseRequest (maxReqMaxAge : ℚ) (evt : NostrEvent) (body? : Option Json) :
    ParsedReq :=
  let body := (jsCoalesce body?).getD (Json.obj [])
  let pair := (jsCoalesce (body.lookup "pair")).getD
    (match getTag evt "pair" with
     | some s => .str s
     | none => .str "BTC-USD")
  let method := jsToString ((jsCoalesce (body.lookup "method")).getD
    (.str "trimmed_mean"))
  let maxAgeMsReq := jsToNumber ((jsCoalesce (body.lookup "maxAgeMs")).getD
    (.num 20000))
  let maxAgeMs := maxAgeMsReq.map (fun q => min q maxReqMaxAge)
  let wanted := match body.lookup "sources" with
    | some (.arr l) => l.filterMap fun j =>
        match j with
        | .str t => if ALL_SOURCES.contains t then some t else none
        | _ => none
    | _ => ALL_SOURCES
  let sources := if wanted.isEmpty then ALL_SOURCES else wanted
  ⟨pair, method, maxAgeMsReq, maxAgeMs, sources⟩

/-- The cache admission test `cached.ageMs <= maxAgeMs`; false against NaN. -/
def cacheAdmits (maxAgeMs : Option ℚ) (ageMs : ℚ) : Bool :=
  match maxAgeMs with
  | some m => decide (ageMs ≤ m)
  | none => false

/-- Content of a relay-signed event, as serialized into `content` by the
handler branches. -/
inductive RespContent where
  | errPair (pair : Json)
  | errQuorum (need got : ℕ) (sourcesRequested : List String)
  | price (pair : Json) (value : ℚ) (method : String)
      (sourcesUsed : List String) (samples : List PriceSample)
      (cacheHit : Bool) (cacheAgeMs : ℚ)

/-- A relay-signed outbound event (signature and relay pubkey elided). -/
structure SignedEvt where
  kind : Int
  tags : List (List String)
  content : RespContent

/-- The cache field of a response content, when the event is a price
response. -/
def SignedEvt.cacheInfo (se : SignedEvt) : Option (Bool × ℚ) :=
  match se.content with
  | .price _ _ _ _ _ hit age => some (hit, age)
  | _ => none

/-- Configurable values read by the handler. -/
structure RelayConfig where
  minQuorum : ℕ
  cacheTtlMs : ℚ
  maxReqMaxAgeMs : ℚ
deriving Repr

/-- Outcome of handling one accepted `38000` event: the relay-signed events
broadcast (terminal events), the cache afterwards, and the upstream sources
actually fetched (empty on the unsupported-pair and cache-hit paths). -/
structure HandleResult where
  emitted : List SignedEvt
  cacheAfter : Option CacheEntry
  fetched : List String

/-- Tags of an error event (lines 363-368 and 413-418). -/
def errTags (evt : NostrEvent) (pair : Json) : List (List String) :=
  [["e", evt.id, "reply"], ["p", evt.pubkey], ["t", "price-error"],
   ["pair", jsToString pair]]

/-- Tags of a price response (lines 381-387 and 438-444). -/
def resTags (evt : NostrEvent) (pair : Json) (used : List PriceSample) :
    List (List String) :=
  [["e", evt.id, "reply"], ["p", evt.pubkey], ["t", "price"],
   ["pair", jsToString pair]] ++ used.map (fun s => ["src", s.source])

/-- The `38000` branch of the message handler (lines 351-459).  `fetchResult`
gives the settled outcome of `fetchPrice` per source (`none` = rejected);
`Promise.allSettled` keeps the fulfilled ones in order.  The `Except.error`
case is an uncaught `aggregate` exception, which aborts before any terminal
event is emitted. -/
def handlePriceReq (cfg : RelayConfig) (evt : NostrEvent) (body? : Option Json)
    (cache : Option CacheEntry) (nowMs : ℚ)
    (fetchResult : String → Option PriceSample) :
    Except String HandleResult :=
  let p := parseRequest cfg.maxReqMaxAgeMs evt body?
  if jsStrEq p.pair "BTC-USD" = false then
    .ok ⟨[⟨KIND_PRICE_ERR, errTags evt p.pair, .errPair p.pair⟩], cache, []⟩
  else
    let hit := match cacheGet cfg.cacheTtlMs cache nowMs with
      | some (e, age) => if cacheAdmits p.maxAgeMs age then some (e, age)
                         else none
      | none => none
    match hit with
    | some (entry, ageMs) =>
      match aggregate entry.samples p.method with
      | .error e => .error e
      | .ok r =>
        .ok ⟨[⟨KIND_PRICE_RES, resTags evt p.pair r.used,
               .price p.pair r.value r.method (r.used.map (·.source)) r.used
                 true ageMs⟩], cache, []⟩
    | none =>
      let samples := (p.sources.map fetchResult).filterMap id
      if samples.length < cfg.minQuorum then
        .ok ⟨[⟨KIND_PRICE_ERR, errTags evt p.pair,
               .errQuorum cfg.minQuorum samples.length p.sources⟩], cache,
             p.sources⟩
      else
        match aggregate samples p.method with
        | .error e => .error e
        | .ok r =>
          .ok ⟨[⟨KIND_PRICE_RES, resTags evt p.pair r.used,
                 .price p.pair r.value r.method (r.used.map (·.source)) r.used
                   false 0⟩], some ⟨nowMs, samples⟩, p.sources⟩

/-- The kind guard at line 351: only `38000` events reach the price
handler. -/
def handleAccepted (cfg : RelayConfig) (evt : NostrEvent) (body? : Option Json)
    (cache : Option CacheEntry) (nowMs : ℚ)
    (fetchResult : String → Option PriceSample) :
    Except String HandleResult :=
  if evt.kind = KIND_PRICE_REQ then
    handlePriceReq cfg evt body? cache nowMs fetchResult
  else .ok ⟨[], cache, []⟩

/-- The two process-wide limiters (`ipLimiter`, `pubLimiter`). -/
structure LimiterPair where
  ipLim : RateLimiter
  pubLim : RateLimiter
deriving DecidableEq, Repr

/-- The admission sequence of an `EVENT` frame whose signature verified
(lines 339-346): IP bucket first, short-circuiting, then the pubkey
bucket. -/
def admitEvent (st : LimiterPair) (ip pubkey : String) (nowMs : ℚ) :
    Option String × LimiterPair :=
  let ipRes := st.ipLim.allow ("ip:" ++ ip) nowMs
  if ipRes.1 = false then
    (some "rate limited (ip)", { st with ipLim := ipRes.2 })
  else
    let pubRes := st.pubLim.allow ("pub:" ++ pubkey) nowMs
    if pubRes.1 = false then
      (some "rate limited (pubkey)", ⟨ipRes.2, pubRes.2⟩)
    else (none, ⟨ipRes.2, pubRes.2⟩)

/-- The `OK` acknowledgement frame. -/
structure OkFrame where
  id : String
  accepted : Bool
  message : String
deriving DecidableEq, Repr

/-- An `EVENT` frame after signature verification (lines 339-349): limiter
checks, then store and acknowledgement. -/
def processEventFrame (maxStored : ℕ) (st : LimiterPair)
    (events : List NostrEvent) (ip : String) (evt : NostrEvent) (nowMs : ℚ) :
    OkFrame × List NostrEvent × LimiterPair :=
  let a := admitEvent st ip evt.pubkey nowMs
  match a.1 with
  | some reason => (⟨evt.id, false, reason⟩, events, a.2)
  | none => (⟨evt.id, true, "accepted"⟩, storeEvent maxStored events evt, a.2)

/-! ### Shared helper lemmas and fixtures -/

/-- Closed form of one `storeEvent` step: always the `maxStored`-bounded
suffix of the appended list. -/
theorem storeEvent_eq (m : ℕ) (events : List NostrEvent) (evt : NostrEvent) :
    storeEvent m events evt =
      (events ++ [evt]).drop ((events ++ [evt]).length - m) := by
  unfold storeEvent
  dsimp only
  split
  · rfl
  · next h =>
    have hle : (events ++ [evt]).length ≤ m := Nat.le_of_not_lt h
    rw [Nat.sub_eq_zero_of_le hle, List.drop_zero]

/-- Folding `storeEvent` keeps exactly the `maxStored`-bounded suffix in
arrival order. -/
theorem storeEvent_foldl (m : ℕ) (l : List NostrEvent) :
    ∀ init : List NostrEvent, init.length ≤ m →
      l.foldl (storeEvent m) init = (init ++ l).drop ((init ++ l).length - m) := by
  induction l with
  | nil =>
    intro init hinit
    simp [Nat.sub_eq_zero_of_le hinit]
  | cons e t ih =>
    intro init hinit
    rw [List.foldl_cons, storeEvent_eq]
    have hd : (init ++ [e]).length - m ≤ (init ++ [e]).length :=
      Nat.sub_le _ _
    have hlen : ((init ++ [e]).drop ((init ++ [e]).length - m)).length ≤ m := by
      rw [List.length_drop]; omega
    rw [ih _ hlen, ← List.drop_append_of_le_length hd, List.drop_drop]
    have hY : init ++ [e] ++ t = init ++ e :: t := by simp
    rw [hY]
    congr 1
    rw [List.length_drop]
    have h1 : (init ++ [e]).length = init.length + 1 := by simp
    have h2 : (init ++ e :: t).length = init.length + (t.length + 1) := by simp
    omega

/-- Fixed sample values used by concrete witnesses. -/
def sampleA : PriceSample := ⟨"coinbase", 60000, 0⟩

/-- Second fixture sample. -/
def sampleB : PriceSample := ⟨"kraken", 60010, 0⟩

/-- Third fixture sample. -/
def sampleC : PriceSample := ⟨"coingecko", 60020, 0⟩

/-- Fourth fixture sample. -/
def sampleD : PriceSample := ⟨"bitstamp", 61000, 0⟩

/-- Fifth fixture sample. -/
def sampleE : PriceSample := ⟨"x", 59000, 0⟩

/-- Fixture events for the store witnesses. -/
def evtA : NostrEvent := ⟨"idA", "pkA", 1, 1, [], ""⟩

/-- Second fixture event. -/
def evtB : NostrEvent := ⟨"idB", "pkB", 2, 1, [], ""⟩

/-- Third fixture event. -/
def evtC : NostrEvent := ⟨"idC", "pkC", 3, 1, [], ""⟩

/-! ### C6: bounded FIFO event store -/

/-- Claim C6: after storing any K events with K > MAX_STORED_EVENTS into the
empty store, the store holds exactly MAX_STORED_EVENTS events, namely the
most recent ones in arrival order (the length-MAX suffix of the arrival
sequence). -/
theorem C6_store_fifo (maxStored : ℕ) (l : List NostrEvent)
    (h : l.length > maxStored) :
    (l.foldl (storeEvent maxStored) []).length = maxStored ∧
    l.foldl (storeEvent maxStored) [] = l.drop (l.length - maxStored) := by
  have hfold := storeEvent_foldl maxStored l [] (by simp)
  simp only [List.nil_append] at hfold
  refine ⟨?_, hfold⟩
  rw [hfold, List.length_drop]
  omega

/-- Witness for C6 at `maxStored = 2` and three stored events. -/
theorem C6_store_fifo_witness :
    ([evtA, evtB, evtC] : List NostrEvent).length > 2 ∧
    (([evtA, evtB, evtC].foldl (storeEvent 2) []).length = 2 ∧
      [evtA, evtB, evtC].foldl (storeEvent 2) [] =
        [evtA, evtB, evtC].drop (([evtA, evtB, evtC] : List NostrEvent).length - 2)) :=
  ⟨by decide, C6_store_fifo 2 [evtA, evtB, evtC] (by decide)⟩

/-! ### C9: inbound frame size gate -/

/-- An ASCII character occupies one UTF-8 byte. -/
theorem utf8Size_eq_one_of_ascii (c : Char) (h : c.toNat < 128) :
    c.utf8Size = 1 := by
  unfold Char.utf8Size
  have hle : c.val ≤ 0x7F := by
    have h2 : c.val.toNat ≤ 127 := Nat.lt_succ_iff.mp (by simpa [Char.toNat] using h)
    exact UInt32.le_def.mpr (by simpa using h2)
  simp [hle]

/-- Claim C9 (amended): the gate fires exactly when the decoded frame's
UTF-16 code-unit count (JS `string.length`) exceeds `MAX_EVENT_BYTES`, not
its byte size; on all-ASCII frames the two coincide, so there the
byte-boundary behavior holds (exactly `MAX_EVENT_BYTES` admits, one more
rejects). -/
theorem C9_frame_gate (maxB : ℕ) (s : String) :
    (frameGate maxB s = some ["NOTICE", "payload too large"] ↔
      maxB < jsStrLen s)
    ∧ ((∀ c ∈ s.data, c.toNat < 128) → jsStrLen s = jsByteLen s) := by
  constructor
  · unfold frameGate
    split
    · next h => simpa using h
    · next h => simpa using h
  · intro h
    unfold jsStrLen jsByteLen
    congr 1
    apply List.map_congr_left
    intro c hc
    have hA := h c hc
    have h16 : c.toNat < 65536 := lt_trans hA (by norm_num)
    rw [if_pos h16, utf8Size_eq_one_of_ascii c hA]

/-- Witness for C9 at an ASCII frame and limit 1. -/
theorem C9_frame_gate_witness :
    (frameGate 1 "ab" = some ["NOTICE", "payload too large"] ↔
      1 < jsStrLen "ab")
    ∧ ((∀ c ∈ "ab".data, c.toNat < 128) → jsStrLen "ab" = jsByteLen "ab") :=
  C9_frame_gate 1 "ab"

/-- Counterexample for C9 as stated: a frame of 32001 two-byte characters is
64002 UTF-8 bytes, strictly over the default `MAX_EVENT_BYTES = 64000`, yet
the gate admits it (the code measures JS string length, 32001). -/
theorem C9_counterexample :
    jsByteLen (String.mk (List.replicate 32001 'é')) = 64002 ∧
    64000 < 64002 ∧
    frameGate 64000 (String.mk (List.replicate 32001 'é')) = none := by
  refine ⟨?_, by norm_num, ?_⟩
  · unfold jsByteLen
    show ((List.replicate 32001 'é').map Char.utf8Size).sum = 64002
    rw [List.map_replicate, List.sum_replicate,
      show Char.utf8Size 'é' = 2 from by decide]
    simp
  · have hlen : jsStrLen (String.mk (List.replicate 32001 'é')) = 32001 := by
      unfold jsStrLen
      show ((List.replicate 32001 'é').map _).sum = 32001
      rw [List.map_replicate, List.sum_replicate,
        show (if 'é'.toNat < 65536 then (1 : ℕ) else 2) = 1 from by decide]
      simp
    unfold frameGate
    rw [hlen]
    norm_num

/-! ### C1: aggregation method ladder -/

/-- Counterexample for C1 as stated: a direct request for method `mean` with
three samples is not honored as `mean`; the code's rule 2 still applies and
returns `median`. -/
theorem C1_counterexample :
    ((aggregate [sampleA, sampleB, sampleC] "mean").map (·.method)).toOption =
      some "median" ∧ ("median" : String) ≠ "mean" := by
  constructor
  · decide
  · decide

/-! ### C10: limiter check order and token consumption -/

/-- Replacing the matching entry in place preserves lookup of the new
value, provided some entry matches. -/
theorem lookup_map_replace (m : List (String × Bucket)) (k : String)
    (v : Bucket) (hany : m.any (fun p => p.1 == k) = true) :
    (m.map (fun p => if p.1 == k then (k, v) else p)).lookup k = some v := by
  induction m with
  | nil => simp at hany
  | cons p t ih =>
    obtain ⟨a, b⟩ := p
    simp only [List.any_cons, Bool.or_eq_true] at hany
    simp only [List.map_cons]
    by_cases hak : a = k
    · subst hak
      rw [if_pos (by simp)]
      simp [List.lookup]
    · have hba : (a == k) = false := beq_eq_false_iff_ne.mpr hak
      have hka : (k == a) = false := beq_eq_false_iff_ne.mpr (Ne.symm hak)
      rw [if_neg (by simp [hba])]
      have ht : t.any (fun p => p.1 == k) = true := by
        rcases hany with h | h
        · rw [hba] at h
          exact absurd h Bool.false_ne_true
        · exact h
      simp only [List.lookup, hka]
      exact ih ht

/-- A key absent from the table is found after the appending `Map.set`. -/
theorem lookup_append_miss (m : List (String × Bucket)) (k : String)
    (v : Bucket) (hnone : m.any (fun p => p.1 == k) = false) :
    (m ++ [(k, v)]).lookup k = some v := by
  rw [List.lookup_append]
  have hmiss : ∀ m' : List (String × Bucket),
      m'.any (fun p => p.1 == k) = false → m'.lookup k = none := by
    intro m'
    induction m' with
    | nil => intro _; rfl
    | cons p t ih =>
      intro hn
      obtain ⟨a, b⟩ := p
      simp only [List.any_cons, Bool.or_eq_false_iff] at hn
      have hka : (k == a) = false :=
        beq_eq_false_iff_ne.mpr (Ne.symm (beq_eq_false_iff_ne.mp hn.1))
      simp only [List.lookup, hka]
      exact ih hn.2
  simp [hmiss m hnone, List.lookup]

/-- `Map.set` followed by `Map.get` yields the stored bucket. -/
theorem lookup_setKey (m : List (String × Bucket)) (k : String) (v : Bucket) :
    (setKey m k v).lookup k = some v := by
  unfold setKey
  by_cases hb : m.any (fun p => p.1 == k) = true
  · rw [if_pos hb]
    exact lookup_map_replace m k v hb
  · rw [if_neg hb]
    refine lookup_append_miss m k v ?_
    revert hb
    cases m.any (fun p => p.1 == k) <;> simp

/-- Claim C10: for a signature-verified EVENT, when the IP bucket admits but
the pubkey bucket denies, the event is not stored, the OK carries
"rate limited (pubkey)", and the IP bucket keeps the deducted state (the
token is not refunded: its stored token count is the refilled value minus
one); when the IP bucket denies, the pubkey limiter is left untouched. -/
theorem C10_limiter_order (ipL pubL : RateLimiter) (maxStored : ℕ)
    (events : List NostrEvent) (ip : String) (evt : NostrEvent) (nowMs : ℚ) :
    ((ipL.allow ("ip:" ++ ip) nowMs).1 = true →
     (pubL.allow ("pub:" ++ evt.pubkey) nowMs).1 = false →
       (processEventFrame maxStored ⟨ipL, pubL⟩ events ip evt nowMs).1 =
         ⟨evt.id, false, "rate limited (pubkey)"⟩ ∧
       (processEventFrame maxStored ⟨ipL, pubL⟩ events ip evt nowMs).2.1 =
         events ∧
       (processEventFrame maxStored ⟨ipL, pubL⟩ events ip evt
           nowMs).2.2.ipLim.buckets.lookup ("ip:" ++ ip) =
         some (allowStep ipL.rps ipL.burst
           (ipL.buckets.lookup ("ip:" ++ ip)) nowMs).2 ∧
       (allowStep ipL.rps ipL.burst (ipL.buckets.lookup ("ip:" ++ ip))
           nowMs).2.tokens =
         min ipL.burst
           (((ipL.buckets.lookup ("ip:" ++ ip)).getD
               ⟨ipL.burst, nowMs⟩).tokens +
             (nowMs - ((ipL.buckets.lookup ("ip:" ++ ip)).getD
               ⟨ipL.burst, nowMs⟩).last) / 1000 * ipL.rps) - 1)
    ∧ ((ipL.allow ("ip:" ++ ip) nowMs).1 = false →
       (processEventFrame maxStored ⟨ipL, pubL⟩ events ip evt nowMs).1 =
         ⟨evt.id, false, "rate limited (ip)"⟩ ∧
       (processEventFrame maxStored ⟨ipL, pubL⟩ events ip evt nowMs).2.1 =
         events ∧
       (processEventFrame maxStored ⟨ipL, pubL⟩ events ip evt
           nowMs).2.2.pubLim = pubL) := by
  constructor
  · intro hIp hPub
    have hres : processEventFrame maxStored ⟨ipL, pubL⟩ events ip evt nowMs =
        (⟨evt.id, false, "rate limited (pubkey)"⟩, events,
         ⟨(ipL.allow ("ip:" ++ ip) nowMs).2,
          (pubL.allow ("pub:" ++ evt.pubkey) nowMs).2⟩) := by
      unfold processEventFrame admitEvent
      simp [hIp, hPub]
    refine ⟨by rw [hres], by rw [hres], ?_, ?_⟩
    · rw [hres]
      show (setKey ipL.buckets ("ip:" ++ ip) _).lookup ("ip:" ++ ip) = _
      exact lookup_setKey _ _ _
    · have hIp' : (allowStep ipL.rps ipL.burst
          (ipL.buckets.lookup ("ip:" ++ ip)) nowMs).1 = true := hIp
      unfold allowStep at hIp' ⊢
      dsimp only at hIp' ⊢
      split at hIp'
      · simp at hIp'
      · next h =>
        rw [if_neg h]
  · intro hIp
    have hres : processEventFrame maxStored ⟨ipL, pubL⟩ events ip evt nowMs =
        (⟨evt.id, false, "rate limited (ip)"⟩, events,
         ⟨(ipL.allow ("ip:" ++ ip) nowMs).2, pubL⟩) := by
      unfold processEventFrame admitEvent
      simp [hIp]
    exact ⟨by rw [hres], by rw [hres], by rw [hres]⟩

/-- Witness for C10: fresh IP bucket admits, zero-capacity pubkey bucket
denies; the stored IP bucket shows the consumed token. -/
theorem C10_limiter_order_witness :
    (((⟨3, 10, []⟩ : RateLimiter).allow ("ip:" ++ "1.2.3.4") 1000).1 = true ∧
     ((⟨2, 0, []⟩ : RateLimiter).allow ("pub:" ++ "alice") 1000).1 = false) ∧
    ((processEventFrame 10 ⟨⟨3, 10, []⟩, ⟨2, 0, []⟩⟩
        [] "1.2.3.4" ⟨"idW", "alice", 0, 1, [], ""⟩ 1000).1 =
      ⟨"idW", false, "rate limited (pubkey)"⟩ ∧
     (processEventFrame 10 ⟨⟨3, 10, []⟩, ⟨2, 0, []⟩⟩
        [] "1.2.3.4" ⟨"idW", "alice", 0, 1, [], ""⟩ 1000).2.1 = [] ∧
     (processEventFrame 10 ⟨⟨3, 10, []⟩, ⟨2, 0, []⟩⟩
        [] "1.2.3.4" ⟨"idW", "alice", 0, 1, [], ""⟩
        1000).2.2.ipLim.buckets.lookup ("ip:" ++ "1.2.3.4") =
       some (allowStep 3 10 (([] : List (String × Bucket)).lookup
         ("ip:" ++ "1.2.3.4")) 1000).2 ∧
     (allowStep 3 10 (([] : List (String × Bucket)).lookup ("ip:" ++ "1.2.3.4"))
         1000).2.tokens =
       min 10 (((([] : List (String × Bucket)).lookup
           ("ip:" ++ "1.2.3.4")).getD ⟨10, 1000⟩).tokens +
         (1000 - ((([] : List (String × Bucket)).lookup
           ("ip:" ++ "1.2.3.4")).getD ⟨10, 1000⟩).last) / 1000 * 3) - 1) :=
  ⟨⟨by norm_num [RateLimiter.allow, allowStep],
    by norm_num [RateLimiter.allow, allowStep]⟩,
   (C10_limiter_order ⟨3, 10, []⟩ ⟨2, 0, []⟩ 10 []
      "1.2.3.4" ⟨"idW", "alice", 0, 1, [], ""⟩ 1000).1
     (by norm_num [RateLimiter.allow, allowStep])
     (by norm_num [RateLimiter.allow, allowStep])⟩

/-! ### C8: cache freshness -/

/-- Inversion of `cacheGet`: a hit is exactly a stored entry whose computed
age is within the TTL. -/
theorem cacheGet_some_iff (ttl : ℚ) (cache : Option CacheEntry) (nowMs : ℚ)
    (e : CacheEntry) (age : ℚ) :
    cacheGet ttl cache nowMs = some (e, age) ↔
      cache = some e ∧ age = nowMs - e.tsMs ∧ age ≤ ttl := by
  cases cache with
  | none => simp [cacheGet]
  | some e2 =>
    simp only [cacheGet]
    by_cases hgt : nowMs - e2.tsMs > ttl
    · rw [if_pos hgt]
      constructor
      · intro h
        exact absurd h (by simp)
      · rintro ⟨he, hage, hle⟩
        obtain rfl : e2 = e := Option.some.inj he
        rw [hage] at hle
        exact absurd hle (not_le_of_lt hgt)
    · rw [if_neg hgt]
      constructor
      · intro h
        obtain ⟨rfl, rfl⟩ := Prod.mk.inj (Option.some.inj h)
        exact ⟨rfl, rfl, le_of_not_lt hgt⟩
      · rintro ⟨he, hage, hle⟩
        obtain rfl : e2 = e := Option.some.inj he
        rw [hage]

/-- The cache admission test succeeds exactly on a non-NaN bound at least
the age. -/
theorem cacheAdmits_eq_true (mo : Option ℚ) (age : ℚ) :
    cacheAdmits mo age = true ↔ ∃ m, mo = some m ∧ age ≤ m := by
  cases mo <;> simp [cacheAdmits]

/-- Any emitted response reporting a cache hit came from the cache-hit
branch: the cache held an entry of that age, within the TTL and within the
request's clamped (non-NaN) maxAgeMs. -/
theorem handle_hit_inv (cfg : RelayConfig) (evt : NostrEvent)
    (body? : Option Json) (cache : Option CacheEntry) (nowMs : ℚ)
    (fetchResult : String → Option PriceSample) (r : HandleResult)
    (h : handlePriceReq cfg evt body? cache nowMs fetchResult = .ok r) :
    ∀ se ∈ r.emitted, ∀ age : ℚ, se.cacheInfo = some (true, age) →
      ∃ entry m, cache = some entry ∧ age = nowMs - entry.tsMs ∧
        age ≤ cfg.cacheTtlMs ∧
        (parseRequest cfg.maxReqMaxAgeMs evt body?).maxAgeMs = some m ∧
        age ≤ m := by
  intro se hse age hci
  unfold handlePriceReq at h
  dsimp only at h
  split at h
  · injection h with h2
    subst h2
    simp only [HandleResult.emitted] at hse
    simp only [List.mem_singleton] at hse
    subst hse
    simp [SignedEvt.cacheInfo] at hci
  · rcases hcg : cacheGet cfg.cacheTtlMs cache nowMs with _ | ⟨entry2, age2⟩
    · rw [hcg] at h
      dsimp only at h
      by_cases hq : (((parseRequest cfg.maxReqMaxAgeMs evt body?).sources.map
          fetchResult).filterMap id).length < cfg.minQuorum
      · rw [if_pos hq] at h
        injection h with h2
        subst h2
        simp only [HandleResult.emitted, List.mem_singleton] at hse
        subst hse
        simp [SignedEvt.cacheInfo] at hci
      · rw [if_neg hq] at h
        rcases haggr : aggregate (((parseRequest cfg.maxReqMaxAgeMs evt
            body?).sources.map fetchResult).filterMap id)
            (parseRequest cfg.maxReqMaxAgeMs evt body?).method with e | rr
        · rw [haggr] at h
          exact absurd h (by simp)
        · rw [haggr] at h
          injection h with h2
          subst h2
          simp only [HandleResult.emitted, List.mem_singleton] at hse
          subst hse
          simp [SignedEvt.cacheInfo] at hci
    · rw [hcg] at h
      dsimp only at h
      by_cases hadm : cacheAdmits
          (parseRequest cfg.maxReqMaxAgeMs evt body?).maxAgeMs age2 = true
      · rw [if_pos hadm] at h
        dsimp only at h
        rcases haggr : aggregate entry2.samples
            (parseRequest cfg.maxReqMaxAgeMs evt body?).method with e | rr
        · rw [haggr] at h
          exact absurd h (by simp)
        · rw [haggr] at h
          injection h with h2
          subst h2
          simp only [HandleResult.emitted, List.mem_singleton] at hse
          subst hse
          simp only [SignedEvt.cacheInfo, Option.some.injEq,
            Prod.mk.injEq] at hci
          obtain ⟨-, rfl⟩ := hci
          obtain ⟨hc, hage, httl⟩ := (cacheGet_some_iff _ _ _ _ _).mp hcg
          obtain ⟨m, hm, hlem⟩ := (cacheAdmits_eq_true _ _).mp hadm
          exact ⟨entry2, m, hc, hage, httl, hm, hlem⟩
      · rw [if_neg hadm] at h
        dsimp only at h
        by_cases hq : (((parseRequest cfg.maxReqMaxAgeMs evt body?).sources.map
            fetchResult).filterMap id).length < cfg.minQuorum
        · rw [if_pos hq] at h
          injection h with h2
          subst h2
          simp only [HandleResult.emitted, List.mem_singleton] at hse
          subst hse
          simp [SignedEvt.cacheInfo] at hci
        · rw [if_neg hq] at h
          rcases haggr : aggregate (((parseRequest cfg.maxReqMaxAgeMs evt
              body?).sources.map fetchResult).filterMap id)
              (parseRequest cfg.maxReqMaxAgeMs evt body?).method with e | rr
          · rw [haggr] at h
            exact absurd h (by simp)
          · rw [haggr] at h
            injection h with h2
            subst h2
            simp only [HandleResult.emitted, List.mem_singleton] at hse
            subst hse
            simp [SignedEvt.cacheInfo] at hci

/-- Claim C8: `cacheGet` returns the entry with its computed age exactly
when that age is within `CACHE_TTL_MS`; every response reporting
`cache.hit = true` has `ageMs` within both the TTL and the request's clamped
`maxAgeMs`; and a request whose clamped `maxAgeMs` is 0 never produces a
cache hit, even against an entry exactly 1 ms old. -/
theorem C8_cache_freshness :
    (∀ (ttl : ℚ) (cache : Option CacheEntry) (nowMs : ℚ) (e : CacheEntry)
        (age : ℚ),
      cacheGet ttl cache nowMs = some (e, age) ↔
        cache = some e ∧ age = nowMs - e.tsMs ∧ age ≤ ttl)
    ∧ (∀ (cfg : RelayConfig) (evt : NostrEvent) (body? : Option Json)
        (cache : Option CacheEntry) (nowMs : ℚ)
        (fetchResult : String → Option PriceSample) (r : HandleResult),
      handlePriceReq cfg evt body? cache nowMs fetchResult = .ok r →
      ∀ se ∈ r.emitted, ∀ age : ℚ, se.cacheInfo = some (true, age) →
        ∃ entry m, cache = some entry ∧ age = nowMs - entry.tsMs ∧
          age ≤ cfg.cacheTtlMs ∧
          (parseRequest cfg.maxReqMaxAgeMs evt body?).maxAgeMs = some m ∧
          age ≤ m)
    ∧ (∀ (cfg : RelayConfig) (evt : NostrEvent) (body? : Option Json)
        (entry : CacheEntry) (nowMs : ℚ)
        (fetchResult : String → Option PriceSample) (r : HandleResult),
      (parseRequest cfg.maxReqMaxAgeMs evt body?).maxAgeMs = some 0 →
      nowMs - entry.tsMs = 1 →
      handlePriceReq cfg evt body? (some entry) nowMs fetchResult = .ok r →
      ∀ se ∈ r.emitted, ∀ age : ℚ, se.cacheInfo ≠ some (true, age)) := by
  refine ⟨fun ttl cache nowMs e age => cacheGet_some_iff ttl cache nowMs e age,
    fun cfg evt body? cache nowMs f r h => handle_hit_inv cfg evt body? cache
      nowMs f r h, ?_⟩
  intro cfg evt body? entry nowMs f r hmax hage1 h se hse age hci
  obtain ⟨entry2, m, hc, hage, _, hm, hlem⟩ :=
    handle_hit_inv cfg evt body? (some entry) nowMs f r h se hse age hci
  obtain rfl : entry = entry2 := Option.some.inj hc
  rw [hage1] at hage
  rw [hmax] at hm
  obtain rfl : (0 : ℚ) = m := Option.some.inj hm
  rw [hage] at hlem
  exact absurd hlem (by norm_num)

/-! ### C2: exactly one terminal event per accepted request -/

/-- `aggregate` never throws on a non-empty sample list. -/
theorem aggregate_isOk (samples : List PriceSample) (method : String)
    (h : samples ≠ []) : ∃ rr, aggregate samples method = .ok rr := by
  unfold aggregate
  dsimp only
  rw [if_neg (by simpa using h)]
  split
  · exact ⟨_, rfl⟩
  · split
    · exact ⟨_, rfl⟩
    · exact ⟨_, rfl⟩

/-- Claim C2: for every accepted event of kind 38000, the handler emits
exactly one terminal event (kind 38001 or 38002) addressed to it via an
`["e", id, "reply"]` tag, across all branches (unsupported pair, cache hit,
insufficient quorum, fresh fetch).  Hypotheses: `MIN_QUORUM` at least 1 (the
default is 3) and the cache invariant that a stored entry holds a non-empty
sample set (which `cacheSet` establishes, being reached only when the
samples passed the quorum check). -/
theorem C2_one_terminal (cfg : RelayConfig) (evt : NostrEvent)
    (body? : Option Json) (cache : Option CacheEntry) (nowMs : ℚ)
    (fetchResult : String → Option PriceSample)
    (hkind : evt.kind = KIND_PRICE_REQ)
    (hq : 1 ≤ cfg.minQuorum)
    (hcache : ∀ e, cache = some e → e.samples ≠ []) :
    ∃ r, handleAccepted cfg evt body? cache nowMs fetchResult = .ok r ∧
      (r.emitted.filter (fun se => se.kind = KIND_PRICE_RES ∨
        se.kind = KIND_PRICE_ERR)).length = 1 ∧
      ∀ se ∈ r.emitted, ["e", evt.id, "reply"] ∈ se.tags := by
  unfold handleAccepted
  rw [if_pos hkind]
  unfold handlePriceReq
  dsimp only
  by_cases hpair : jsStrEq (parseRequest cfg.maxReqMaxAgeMs evt body?).pair
      "BTC-USD" = false
  · rw [if_pos hpair]
    refine ⟨_, rfl, ?_, ?_⟩
    · simp [KIND_PRICE_RES, KIND_PRICE_ERR]
    · intro se hse
      simp only [List.mem_singleton] at hse
      subst hse
      simp [errTags]
  · rw [if_neg hpair]
    rcases hcg : cacheGet cfg.cacheTtlMs cache nowMs with _ | ⟨entry2, age2⟩
    · dsimp only
      by_cases hq2 : (((parseRequest cfg.maxReqMaxAgeMs evt body?).sources.map
          fetchResult).filterMap id).length < cfg.minQuorum
      · rw [if_pos hq2]
        refine ⟨_, rfl, ?_, ?_⟩
        · simp [KIND_PRICE_RES, KIND_PRICE_ERR]
        · intro se hse
          simp only [List.mem_singleton] at hse
          subst hse
          simp [errTags]
      · rw [if_neg hq2]
        have hne : ((parseRequest cfg.maxReqMaxAgeMs evt body?).sources.map
            fetchResult).filterMap id ≠ [] := by
          intro hnil
          rw [hnil] at hq2
          simp only [List.length_nil] at hq2
          omega
        obtain ⟨rr, hrr⟩ := aggregate_isOk _
          (parseRequest cfg.maxReqMaxAgeMs evt body?).method hne
        rw [hrr]
        refine ⟨_, rfl, ?_, ?_⟩
        · simp [KIND_PRICE_RES, KIND_PRICE_ERR]
        · intro se hse
          simp only [List.mem_singleton] at hse
          subst hse
          simp [resTags]
    · dsimp only
      by_cases hadm : cacheAdmits
          (parseRequest cfg.maxReqMaxAgeMs evt body?).maxAgeMs age2 = true
      · rw [if_pos hadm]
        dsimp only
        have hne : entry2.samples ≠ [] :=
          hcache entry2 ((cacheGet_some_iff _ _ _ _ _).mp hcg).1
        obtain ⟨rr, hrr⟩ := aggregate_isOk _
          (parseRequest cfg.maxReqMaxAgeMs evt body?).method hne
        rw [hrr]
        refine ⟨_, rfl, ?_, ?_⟩
        · simp [KIND_PRICE_RES, KIND_PRICE_ERR]
        · intro se hse
          simp only [List.mem_singleton] at hse
          subst hse
          simp [resTags]
      · rw [if_neg hadm]
        dsimp only
        by_cases hq2 : (((parseRequest cfg.maxReqMaxAgeMs evt
            body?).sources.map fetchResult).filterMap id).length <
            cfg.minQuorum
        · rw [if_pos hq2]
          refine ⟨_, rfl, ?_, ?_⟩
          · simp [KIND_PRICE_RES, KIND_PRICE_ERR]
          · intro se hse
            simp only [List.mem_singleton] at hse
            subst hse
            simp [errTags]
        · rw [if_neg hq2]
          have hne : ((parseRequest cfg.maxReqMaxAgeMs evt body?).sources.map
              fetchResult).filterMap id ≠ [] := by
            intro hnil
            rw [hnil] at hq2
            simp only [List.length_nil] at hq2
            omega
          obtain ⟨rr, hrr⟩ := aggregate_isOk _
            (parseRequest cfg.maxReqMaxAgeMs evt body?).method hne
          rw [hrr]
          refine ⟨_, rfl, ?_, ?_⟩
          · simp [KIND_PRICE_RES, KIND_PRICE_ERR]
          · intro se hse
            simp only [List.mem_singleton] at hse
            subst hse
            simp [resTags]

/-- Witness for C2: default config, a bare 38000 request, cold cache, all
four upstreams succeeding. -/
theorem C2_one_terminal_witness :
    ((⟨"r1", "alice", 0, 38000, [], ""⟩ : NostrEvent).kind = KIND_PRICE_REQ ∧
     1 ≤ (⟨3, 2000, 60000⟩ : RelayConfig).minQuorum ∧
     (∀ e, (none : Option CacheEntry) = some e → e.samples ≠ [])) ∧
    (∃ r, handleAccepted ⟨3, 2000, 60000⟩ ⟨"r1", "alice", 0, 38000, [], ""⟩
        none none 0 (fun s => some ⟨s, 60000, 0⟩) = .ok r ∧
      (r.emitted.filter (fun se => se.kind = KIND_PRICE_RES ∨
        se.kind = KIND_PRICE_ERR)).length = 1 ∧
      ∀ se ∈ r.emitted,
        ["e", (⟨"r1", "alice", 0, 38000, [], ""⟩ : NostrEvent).id, "reply"]
          ∈ se.tags) :=
  ⟨⟨by decide, by decide, by simp⟩,
   C2_one_terminal ⟨3, 2000, 60000⟩ ⟨"r1", "alice", 0, 38000, [], ""⟩
     none none 0 (fun s => some ⟨s, 60000, 0⟩) (by decide) (by decide)
     (by simp)⟩

/-! ### C4: request field extraction and defaults -/

/-- Claim C4 (amended): the handler's field extraction behaves as follows.
`pair` is the content's `pair` value when present and non-null; otherwise it
falls back to the event's `pair` tag, and only then to "BTC-USD".  `method`
defaults to "trimmed_mean" only when missing/null; a present value is
string-coerced, not validated.  `maxAgeMs` defaults to 20000 only when
missing/null; a present value is number-coerced — a non-numeric value gives
NaN, which is clamped to NaN and then never admits a cache entry (it does
not become 20000).  The effective `maxAgeMs` is `min(requested,
MAX_REQUEST_MAXAGE_MS)`.  `sources` falls back to `ALL_SOURCES` when the
field is not an array or when filtering to recognized names leaves it
empty. -/
theorem C4_parse_defaults (cap : ℚ) (evt : NostrEvent) (body? : Option Json) :
    (jsCoalesce (((jsCoalesce body?).getD (Json.obj [])).lookup "pair") =
        none → getTag evt "pair" = none →
      (parseRequest cap evt body?).pair = Json.str "BTC-USD")
    ∧ (∀ s, jsCoalesce (((jsCoalesce body?).getD (Json.obj [])).lookup
          "pair") = none → getTag evt "pair" = some s →
      (parseRequest cap evt body?).pair = Json.str s)
    ∧ (∀ j, jsCoalesce (((jsCoalesce body?).getD (Json.obj [])).lookup
          "pair") = some j → (parseRequest cap evt body?).pair = j)
    ∧ (jsCoalesce (((jsCoalesce body?).getD (Json.obj [])).lookup "method") =
        none → (parseRequest cap evt body?).method = "trimmed_mean")
    ∧ (∀ j, jsCoalesce (((jsCoalesce body?).getD (Json.obj [])).lookup
          "method") = some j →
      (parseRequest cap evt body?).method = jsToString j)
    ∧ (jsCoalesce (((jsCoalesce body?).getD (Json.obj [])).lookup
          "maxAgeMs") = none →
      (parseRequest cap evt body?).maxAgeMs = some (min 20000 cap))
    ∧ (∀ j, jsCoalesce (((jsCoalesce body?).getD (Json.obj [])).lookup
          "maxAgeMs") = some j →
      (parseRequest cap evt body?).maxAgeMs =
        (jsToNumber j).map (fun q => min q cap))
    ∧ ((parseRequest cap evt body?).maxAgeMsReq = none →
      ∀ age, cacheAdmits (parseRequest cap evt body?).maxAgeMs age = false)
    ∧ ((∀ l, ((jsCoalesce body?).getD (Json.obj [])).lookup "sources" ≠
          some (Json.arr l)) →
      (parseRequest cap evt body?).sources = ALL_SOURCES)
    ∧ (∀ l, ((jsCoalesce body?).getD (Json.obj [])).lookup "sources" =
          some (Json.arr l) →
      (parseRequest cap evt body?).sources =
        (if (l.filterMap fun j => match j with
            | Json.str t => if ALL_SOURCES.contains t then some t else none
            | _ => none).isEmpty then ALL_SOURCES
         else l.filterMap fun j => match j with
            | Json.str t => if ALL_SOURCES.contains t then some t else none
            | _ => none)) := by
  unfold parseRequest
  dsimp only
  refine ⟨?_, ?_, ?_, ?_, ?_, ?_, ?_, ?_, ?_, ?_⟩
  · intro h1 h2
    rw [h1, h2]
    rfl
  · intro s h1 h2
    rw [h1, h2]
    rfl
  · intro j h1
    rw [h1]
    rfl
  · intro h1
    rw [h1]
    rfl
  · intro j h1
    rw [h1]
    rfl
  · intro h1
    rw [h1]
    rfl
  · intro j h1
    rw [h1]
    rfl
  · intro h1 age
    rw [h1]
    rfl
  · intro h1
    rcases hs : ((jsCoalesce body?).getD (Json.obj [])).lookup "sources"
        with _ | j
    · rfl
    · cases j with
      | arr l => exact absurd hs (h1 l)
      | null => rfl
      | bool b => rfl
      | num q => rfl
      | str s => rfl
      | obj fields => rfl
  · intro l h1
    rw [h1]

/-- Witness for C4 at a request with an explicit string pair, method and
numeric maxAgeMs. -/
theorem C4_parse_defaults_witness :
    (jsCoalesce (((jsCoalesce (some (Json.obj [("pair",
        Json.str "BTC-USD")]))).getD (Json.obj [])).lookup "pair") =
      some (Json.str "BTC-USD")) ∧
    (parseRequest 60000 evtA (some (Json.obj [("pair", Json.str "BTC-USD")]))
      ).pair = Json.str "BTC-USD" :=
  ⟨rfl, (C4_parse_defaults 60000 evtA
    (some (Json.obj [("pair", Json.str "BTC-USD")]))).2.2.1
      (Json.str "BTC-USD") rfl⟩

/-- Counterexample for C4 as stated: for a request whose content carries no
`pair` but whose event has a `["pair","ETH-USD"]` tag, the stated pair is
"ETH-USD", not the claimed default "BTC-USD"; and a non-numeric `maxAgeMs`
(here an object) yields NaN — the cache-admission bound — rather than the
claimed default 20000. -/
theorem C4_counterexample :
    jsStrEq (parseRequest 60000 ⟨"id1", "pk1", 0, 38000,
        [["pair", "ETH-USD"]], ""⟩
      (some (Json.obj [("maxAgeMs", Json.obj [])]))).pair "BTC-USD" = false ∧
    jsStrEq (parseRequest 60000 ⟨"id1", "pk1", 0, 38000,
        [["pair", "ETH-USD"]], ""⟩
      (some (Json.obj [("maxAgeMs", Json.obj [])]))).pair "ETH-USD" = true ∧
    (parseRequest 60000 ⟨"id1", "pk1", 0, 38000, [["pair", "ETH-USD"]], ""⟩
      (some (Json.obj [("maxAgeMs", Json.obj [])]))).maxAgeMs ≠ some 20000 ∧
    (parseRequest 60000 ⟨"id1", "pk1", 0, 38000, [["pair", "ETH-USD"]], ""⟩
      (some (Json.obj [("maxAgeMs", Json.obj [])]))).maxAgeMs = none := by
  refine ⟨by decide, by decide, by decide, by decide⟩

/-! ### C7: subscription backfill -/

/-- The collection loop equals a `take` of the filtered walk order. -/
theorem collectMatches_eq_take (f : NostrFilter) (lim : ℚ)
    (l : List NostrEvent) :
    ∀ cnt : ℕ, collectMatches f lim l cnt =
      (l.filter (fun e => matchFilter e f)).take (⌈lim⌉₊ - cnt) := by
  induction l with
  | nil => intro cnt; simp [collectMatches]
  | cons e rest ih =>
    intro cnt
    unfold collectMatches
    by_cases hlt : (cnt : ℚ) < lim
    · rw [if_pos hlt]
      have hcn : cnt < ⌈lim⌉₊ := Nat.lt_ceil.mpr hlt
      by_cases hm : matchFilter e f = true
      · rw [if_pos hm, ih (cnt + 1),
          @List.filter_cons_of_pos _ (fun e => matchFilter e f) e rest hm]
        have hstep : ⌈lim⌉₊ - cnt = (⌈lim⌉₊ - (cnt + 1)) + 1 := by omega
        rw [hstep, List.take_succ_cons]
      · rw [if_neg hm, ih cnt,
          @List.filter_cons_of_neg _ (fun e => matchFilter e f) e rest hm]
    · rw [if_neg hlt]
      have hge : ⌈lim⌉₊ ≤ cnt := by
        by_contra hc
        exact hlt (Nat.lt_ceil.mp (Nat.lt_of_not_le hc))
      rw [Nat.sub_eq_zero_of_le hge, List.take_zero]

/-- Claim C7: the backfill query walks the store newest to oldest per
filter, collecting at most `min(filter.limit ?? 200, 2000)` matches,
concatenates across filters (duplicates allowed), and the REQ handler sends
the matches as EVENT frames in that order followed by exactly one EOSE. -/
theorem C7_req_backfill (events : List NostrEvent) (subId : String)
    (filters : List NostrFilter) :
    queryEvents events filters = (filters.map (fun f =>
        (events.reverse.filter (fun e => matchFilter e f)).take
          ⌈effLimit f⌉₊)).flatten
    ∧ (∀ f : NostrFilter, ∀ n : ℕ, f.limit = some (n : ℚ) →
        ((events.reverse.filter (fun e => matchFilter e f)).take
          ⌈effLimit f⌉₊).length ≤ min n 2000)
    ∧ (∀ f : NostrFilter,
        ((events.reverse.filter (fun e => matchFilter e f)).take
          ⌈effLimit f⌉₊).Sublist events.reverse)
    ∧ handleReqMsg events subId filters =
        (queryEvents events filters).map (Frame.event subId) ++
          [Frame.eose subId]
    ∧ (handleReqMsg events subId filters).filter (fun fr =>
        match fr with | .eose _ => true | _ => false) = [Frame.eose subId] := by
  have hq : queryEvents events filters = (filters.map (fun f =>
      (events.reverse.filter (fun e => matchFilter e f)).take
        ⌈effLimit f⌉₊)).flatten := by
    unfold queryEvents
    congr 1
    apply List.map_congr_left
    intro f _
    rw [collectMatches_eq_take f (effLimit f) events.reverse 0, Nat.sub_zero]
  refine ⟨hq, ?_, ?_, rfl, ?_⟩
  · intro f n hn
    have hcast : effLimit f = ((min n 2000 : ℕ) : ℚ) := by
      unfold effLimit
      rw [hn, Option.getD_some, Nat.cast_min]
      norm_num
    rw [hcast, Nat.ceil_natCast, List.length_take]
    exact min_le_left _ _
  · intro f
    exact (List.take_sublist _ _).trans (List.filter_sublist _)
  · unfold handleReqMsg
    rw [List.filter_append, List.filter_map]
    have hnil : (queryEvents events filters).filter
        ((fun fr => match fr with | Frame.eose _ => true | _ => false) ∘
          Frame.event subId) = [] := by
      apply List.filter_eq_nil_iff.mpr
      intro a _
      simp [Function.comp]
    rw [hnil]
    simp

/-! ### C5: token-bucket rate limiter -/

/-- One `allow` step keeps the tokens non-negative, stamps `last`, and the
admitted count plus remaining tokens grows at most with the refill. -/
theorem allowStep_inv (rps burst : ℚ) (b : Bucket) (t : ℚ)
    (hrps : 0 ≤ rps) (hburst : 0 ≤ burst) (hb : 0 ≤ b.tokens)
    (ht : b.last ≤ t) :
    0 ≤ (allowStep rps burst (some b) t).2.tokens ∧
    (allowStep rps burst (some b) t).2.last = t ∧
    ((if (allowStep rps burst (some b) t).1 then (1 : ℚ) else 0) +
        (allowStep rps burst (some b) t).2.tokens ≤
      b.tokens + (t - b.last) / 1000 * rps) ∧
    ((if (allowStep rps burst (some b) t).1 then (1 : ℚ) else 0) +
        (allowStep rps burst (some b) t).2.tokens ≤ burst) := by
  have hfill : 0 ≤ (t - b.last) / 1000 * rps := by
    apply mul_nonneg _ hrps
    apply div_nonneg _ (by norm_num)
    linarith
  have hX : 0 ≤ b.tokens + (t - b.last) / 1000 * rps := by linarith
  have hminX : min burst (b.tokens + (t - b.last) / 1000 * rps) ≤
      b.tokens + (t - b.last) / 1000 * rps := min_le_right _ _
  have hminB : min burst (b.tokens + (t - b.last) / 1000 * rps) ≤ burst :=
    min_le_left _ _
  have hmin0 : 0 ≤ min burst (b.tokens + (t - b.last) / 1000 * rps) :=
    le_min hburst hX
  unfold allowStep
  simp only [Option.getD_some]
  by_cases hlt : min burst (b.tokens + (t - b.last) / 1000 * rps) < 1
  · rw [if_pos hlt]
    dsimp only
    refine ⟨hmin0, rfl, ?_, ?_⟩
    · simp only [Bool.false_eq_true, if_false]
      linarith [hminX]
    · simp only [Bool.false_eq_true, if_false]
      linarith [hminB]
  · rw [if_neg hlt]
    dsimp only
    refine ⟨by linarith [not_lt.mp hlt], rfl, ?_, ?_⟩
    · split
      · linarith [hminX]
      · linarith [hminX]
    · split
      · linarith [hminB]
      · linarith [hminB]

/-- Folding `allow` over monotone call times: tokens stay non-negative,
`last` tracks the latest call, and admitted calls plus remaining tokens are
bounded by the initial tokens plus the total refill across the span. -/
theorem runAllowB_bound (rps burst : ℚ) (hrps : 0 ≤ rps)
    (hburst : 0 ≤ burst) :
    ∀ (times : List ℚ) (b : Bucket), 0 ≤ b.tokens →
      List.Chain (· ≤ ·) b.last times →
      0 ≤ (runAllowB rps burst b times).2.tokens ∧
      (runAllowB rps burst b times).2.last = times.getLastD b.last ∧
      (((runAllowB rps burst b times).1 : ℚ) +
          (runAllowB rps burst b times).2.tokens ≤
        b.tokens + (times.getLastD b.last - b.last) / 1000 * rps) := by
  intro times
  induction times with
  | nil =>
    intro b hb _
    refine ⟨hb, rfl, ?_⟩
    simp [runAllowB]
  | cons t ts ih =>
    intro b hb hchain
    obtain ⟨hbt, hchain2⟩ := List.chain_cons.mp hchain
    obtain ⟨h0, hlast, hle, -⟩ :=
      allowStep_inv rps burst b t hrps hburst hb hbt
    have hchain3 : List.Chain (· ≤ ·)
        (allowStep rps burst (some b) t).2.last ts := by
      rw [hlast]
      exact hchain2
    obtain ⟨hih0, hihlast, hihle⟩ :=
      ih (allowStep rps burst (some b) t).2 h0 hchain3
    rw [hlast] at hihlast hihle
    have hrun : runAllowB rps burst b (t :: ts) =
        ((if (allowStep rps burst (some b) t).1 then 1 else 0) +
          (runAllowB rps burst (allowStep rps burst (some b) t).2 ts).1,
         (runAllowB rps burst (allowStep rps burst (some b) t).2 ts).2) := rfl
    rw [hrun]
    rw [List.getLastD_cons]
    refine ⟨hih0, hihlast, ?_⟩
    have hcast : (((if (allowStep rps burst (some b) t).1 then 1 else 0) +
        (runAllowB rps burst (allowStep rps burst (some b) t).2 ts).1 : ℕ) :
          ℚ) =
        (if (allowStep rps burst (some b) t).1 then (1 : ℚ) else 0) +
          ((runAllowB rps burst (allowStep rps burst (some b) t).2 ts).1 :
            ℚ) := by
      cases (allowStep rps burst (some b) t).1 <;> push_cast <;> ring
    rw [hcast]
    have hsplit : (ts.getLastD t - b.last) / 1000 * rps =
        (t - b.last) / 1000 * rps + (ts.getLastD t - t) / 1000 * rps := by
      ring
    linarith [hle, hihle]

/-- The window bound from an arbitrary stored bucket with non-negative
tokens: the first refill is capped at `burst`, after which the refill across
the window adds at most `rps · W`. -/
theorem runAllowB_window_bound (rps burst W t0 : ℚ) (hrps : 0 ≤ rps)
    (hburst : 0 ≤ burst) (hW : 0 ≤ W) (b : Bucket) (hb : 0 ≤ b.tokens)
    (times : List ℚ) (hchain : List.Chain (· ≤ ·) b.last times)
    (hwin : ∀ t ∈ times, t0 ≤ t ∧ t ≤ t0 + W * 1000) :
    ((runAllowB rps burst b times).1 : ℚ) ≤ burst + rps * W := by
  cases times with
  | nil =>
    simp only [runAllowB, Nat.cast_zero]
    have := mul_nonneg hrps hW
    linarith
  | cons t1 ts =>
    obtain ⟨hb1, hchain2⟩ := List.chain_cons.mp hchain
    obtain ⟨h0, hlast, -, hcap⟩ :=
      allowStep_inv rps burst b t1 hrps hburst hb hb1
    have hchain3 : List.Chain (· ≤ ·)
        (allowStep rps burst (some b) t1).2.last ts := by
      rw [hlast]
      exact hchain2
    obtain ⟨hend0, -, hbound⟩ := runAllowB_bound rps burst hrps hburst
      ts (allowStep rps burst (some b) t1).2 h0 hchain3
    rw [hlast] at hbound
    have hrun : (runAllowB rps burst b (t1 :: ts)).1 =
        (if (allowStep rps burst (some b) t1).1 then 1 else 0) +
          (runAllowB rps burst (allowStep rps burst (some b) t1).2 ts).1 :=
      rfl
    rw [hrun]
    have hcast : (((if (allowStep rps burst (some b) t1).1 then 1 else 0) +
        (runAllowB rps burst (allowStep rps burst (some b) t1).2 ts).1 : ℕ) :
          ℚ) =
        (if (allowStep rps burst (some b) t1).1 then (1 : ℚ) else 0) +
          ((runAllowB rps burst (allowStep rps burst (some b) t1).2 ts).1 :
            ℚ) := by
      cases (allowStep rps burst (some b) t1).1 <;> push_cast <;> ring
    rw [hcast]
    have hmem : ts.getLastD t1 ∈ t1 :: ts := List.getLastD_mem_cons ts t1
    obtain ⟨hlo1, -⟩ := hwin t1 (List.mem_cons_self t1 ts)
    obtain ⟨-, hhi⟩ := hwin (ts.getLastD t1) hmem
    have hspan : ts.getLastD t1 - t1 ≤ W * 1000 := by linarith
    have hdiv : (ts.getLastD t1 - t1) / 1000 * rps ≤
        (W * 1000) / 1000 * rps := by
      apply mul_le_mul_of_nonneg_right _ hrps
      exact div_le_div_of_nonneg_right hspan (by norm_num)
    have hWsimp : (W * 1000) / 1000 * rps = rps * W := by
      field_simp
      ring
    rw [hWsimp] at hdiv
    linarith [hcap, hbound, hend0]

/-- Claim C5: over any window of W seconds, a key admits at most
`burst + rps · W` calls — both from the key's first sighting (fresh bucket)
and from any stored bucket with non-negative tokens (every reachable
bucket), for monotone call times within `[t0, t0 + 1000·W]`; and each
`allow` call refills `tokens ← min(burst, tokens + elapsed·rps)`, stamps
`last`, denies exactly when the refilled count is below 1, and consumes one
token exactly on admission. -/
theorem C5_token_bucket (rps burst W t0 : ℚ) (times : List ℚ)
    (hrps : 0 ≤ rps) (hburst : 0 ≤ burst) (hW : 0 ≤ W)
    (hchain : times.Chain' (· ≤ ·))
    (hwin : ∀ t ∈ times, t0 ≤ t ∧ t ≤ t0 + W * 1000) :
    ((admittedCount rps burst times : ℕ) : ℚ) ≤ burst + rps * W
    ∧ (∀ b : Bucket, 0 ≤ b.tokens → List.Chain (· ≤ ·) b.last times →
        ((runAllowB rps burst b times).1 : ℚ) ≤ burst + rps * W)
    ∧ (∀ (prev : Option Bucket) (nowMs : ℚ),
        ((allowStep rps burst prev nowMs).1 = false ↔
          min burst ((prev.getD ⟨burst, nowMs⟩).tokens +
            (nowMs - (prev.getD ⟨burst, nowMs⟩).last) / 1000 * rps) < 1)
        ∧ (allowStep rps burst prev nowMs).2.tokens =
            min burst ((prev.getD ⟨burst, nowMs⟩).tokens +
              (nowMs - (prev.getD ⟨burst, nowMs⟩).last) / 1000 * rps) -
            (if (allowStep rps burst prev nowMs).1 then 1 else 0)
        ∧ (allowStep rps burst prev nowMs).2.last = nowMs) := by
  refine ⟨?_, ?_, ?_⟩
  · cases times with
    | nil =>
      simp only [admittedCount, Nat.cast_zero]
      have : 0 ≤ rps * W := mul_nonneg hrps hW
      linarith
    | cons t1 ts =>
      have hcount : admittedCount rps burst (t1 :: ts) =
          (runAllowB rps burst ⟨burst, t1⟩ (t1 :: ts)).1 := rfl
      rw [hcount]
      have hchainB : List.Chain (· ≤ ·)
          (Bucket.mk burst t1).last (t1 :: ts) := by
        rw [List.chain_cons]
        exact ⟨le_refl t1, hchain⟩
      exact runAllowB_window_bound rps burst W t0 hrps hburst hW
        ⟨burst, t1⟩ hburst (t1 :: ts) hchainB hwin
  · intro b hb hch
    exact runAllowB_window_bound rps burst W t0 hrps hburst hW b hb times
      hch hwin
  · intro prev nowMs
    unfold allowStep
    dsimp only
    by_cases hlt : min burst ((prev.getD ⟨burst, nowMs⟩).tokens +
        (nowMs - (prev.getD ⟨burst, nowMs⟩).last) / 1000 * rps) < 1
    · rw [if_pos hlt]
      refine ⟨by simpa using hlt, by simp, rfl⟩
    · rw [if_neg hlt]
      refine ⟨by simpa using hlt, by simp, rfl⟩

/-- Witness for C5: three calls within a one-second window at defaults
`rps = 3`, `burst = 10`. -/
theorem C5_token_bucket_witness :
    ((0 : ℚ) ≤ 3 ∧ (0 : ℚ) ≤ 10 ∧ (0 : ℚ) ≤ 1 ∧
      ([(0 : ℚ), 500, 1000] : List ℚ).Chain' (· ≤ ·) ∧
      (∀ t ∈ ([(0 : ℚ), 500, 1000] : List ℚ), 0 ≤ t ∧ t ≤ 0 + 1 * 1000)) ∧
    (((admittedCount 3 10 [0, 500, 1000] : ℕ) : ℚ) ≤ 10 + 3 * 1
     ∧ (∀ b : Bucket, 0 ≤ b.tokens →
        List.Chain (· ≤ ·) b.last [(0 : ℚ), 500, 1000] →
        ((runAllowB 3 10 b [0, 500, 1000]).1 : ℚ) ≤ 10 + 3 * 1)
     ∧ (∀ (prev : Option Bucket) (nowMs : ℚ),
        ((allowStep 3 10 prev nowMs).1 = false ↔
          min 10 ((prev.getD ⟨10, nowMs⟩).tokens +
            (nowMs - (prev.getD ⟨10, nowMs⟩).last) / 1000 * 3) < 1)
        ∧ (allowStep 3 10 prev nowMs).2.tokens =
            min 10 ((prev.getD ⟨10, nowMs⟩).tokens +
              (nowMs - (prev.getD ⟨10, nowMs⟩).last) / 1000 * 3) -
            (if (allowStep 3 10 prev nowMs).1 then 1 else 0)
        ∧ (allowStep 3 10 prev nowMs).2.last = nowMs)) :=
  ⟨⟨by norm_num, by norm_num, by norm_num,
    by norm_num [List.chain'_cons], by norm_num⟩,
   C5_token_bucket 3 10 1 0 [0, 500, 1000] (by norm_num) (by norm_num)
     (by norm_num) (by norm_num [List.chain'_cons]) (by norm_num)⟩

/-- The value-sort is a permutation of its input. -/
theorem sortByValue_perm (samples : List PriceSample) :
    (sortByValue samples).Perm samples :=
  List.mergeSort_perm samples _

/-- The value-sort is sorted by value. -/
theorem sortByValue_sorted (samples : List PriceSample) :
    List.Pairwise (fun a b : PriceSample => a.value ≤ b.value)
      (sortByValue samples) := by
  have hs := @List.sorted_mergeSort PriceSample
    (fun a b => decide (a.value ≤ b.value))
    (fun a b c hab hbc => by
      simp only [decide_eq_true_eq] at *
      exact le_trans hab hbc)
    (fun a b => by
      simp only [Bool.or_eq_true, decide_eq_true_eq]
      exact le_total a.value b.value)
    samples
  exact hs.imp (fun h => by simpa using h)

/-- Claim C1 (amended): the selection ladder as the code implements it.
Rule 1 applies only when `trimmed_mean` is requested with at least five
samples: the used set is the input minus one value-minimal and one
value-maximal sample (exactly two dropped), and the value is the arithmetic
mean of the used values.  Otherwise — in particular whenever the caller
requested `median` or `mean` directly, skipping rule 1 — at least three
samples give the median over all input samples with effective method
`median` (so a direct request for `mean` with three or more samples yields
`median`, not `mean`), and fewer than three give the arithmetic mean with
effective method `mean`. -/
theorem C1_aggregate_ladder (samples : List PriceSample) (method : String)
    (h : samples ≠ []) :
    (method = "trimmed_mean" → 5 ≤ samples.length →
      ∃ r, aggregate samples method = .ok r ∧ r.method = "trimmed_mean" ∧
        r.used.length = samples.length - 2 ∧
        r.value = mean (r.used.map (·.value)) ∧
        ∃ lo hi, samples.Perm (lo :: (r.used ++ [hi])) ∧
          (∀ s ∈ r.used, lo.value ≤ s.value ∧ s.value ≤ hi.value))
    ∧ ((method ≠ "trimmed_mean" ∨ samples.length < 5) →
        3 ≤ samples.length →
        aggregate samples method =
          .ok ⟨median (samples.map (·.value)), "median", samples⟩)
    ∧ ((method ≠ "trimmed_mean" ∨ samples.length < 5) →
        samples.length < 3 →
        aggregate samples method =
          .ok ⟨mean (samples.map (·.value)), "mean", samples⟩) := by
  have hlen0 : ¬ (samples.map (·.value)).length = 0 := by simpa using h
  refine ⟨?_, ?_, ?_⟩
  · intro hm h5
    unfold aggregate
    dsimp only
    rw [if_neg hlen0, if_pos ⟨hm, h5⟩]
    refine ⟨_, rfl, rfl, ?_, rfl, ?_⟩
    · have hp := (sortByValue_perm samples).length_eq
      have hd : ((sortByValue samples).drop 1).length =
          (sortByValue samples).length - 1 := List.length_drop 1 _
      have hdl := List.length_dropLast ((sortByValue samples).drop 1)
      dsimp only
      omega
    · have hperm := sortByValue_perm samples
      have hsorted := sortByValue_sorted samples
      have hlen : (sortByValue samples).length = samples.length :=
        hperm.length_eq
      rcases hs : sortByValue samples with _ | ⟨lo, rest⟩
      · rw [hs] at hlen
        simp only [List.length_nil] at hlen
        omega
      · have hrne : rest ≠ [] := by
          rw [hs] at hlen
          simp only [List.length_cons] at hlen
          intro hnil
          rw [hnil] at hlen
          simp at hlen
          omega
        refine ⟨lo, rest.getLast hrne, ?_, ?_⟩
        · have hdecomp : rest.dropLast ++ [rest.getLast hrne] = rest :=
            List.dropLast_append_getLast hrne
          dsimp only
          have hused : (List.drop 1 (lo :: rest)).dropLast = rest.dropLast :=
            rfl
          rw [hused, hdecomp, ← hs]
          exact hperm.symm
        · intro s hsmem
          rw [hs] at hsorted
          obtain ⟨hlo, hrestP⟩ := List.pairwise_cons.mp hsorted
          dsimp only at hsmem
          have hsmid : s ∈ rest.dropLast := hsmem
          have hsrest : s ∈ rest := (List.dropLast_sublist rest).mem hsmid
          constructor
          · exact hlo s hsrest
          · have hdecomp : rest.dropLast ++ [rest.getLast hrne] = rest :=
              List.dropLast_append_getLast hrne
            rw [← hdecomp] at hrestP
            obtain ⟨-, -, hcross⟩ := List.pairwise_append.mp hrestP
            exact hcross s hsmid (rest.getLast hrne)
              (List.mem_singleton.mpr rfl)
  · intro hnot h3
    unfold aggregate
    dsimp only
    rw [if_neg hlen0]
    rw [if_neg ?_, if_pos h3]
    rintro ⟨hm, h5⟩
    rcases hnot with hnm | hlt5
    · exact hnm hm
    · omega
  · intro hnot h3
    unfold aggregate
    dsimp only
    rw [if_neg hlen0]
    rw [if_neg ?_, if_neg (by omega)]
    rintro ⟨hm, h5⟩
    rcases hnot with hnm | hlt5
    · exact hnm hm
    · omega

/-- Witness for C1 at five concrete samples with method `trimmed_mean`. -/
theorem C1_aggregate_ladder_witness :
    ([sampleA, sampleB, sampleC, sampleD, sampleE] : List PriceSample) ≠ []
    ∧ (("trimmed_mean" : String) = "trimmed_mean" →
        5 ≤ ([sampleA, sampleB, sampleC, sampleD, sampleE] :
          List PriceSample).length →
      ∃ r, aggregate [sampleA, sampleB, sampleC, sampleD, sampleE]
          "trimmed_mean" = .ok r ∧ r.method = "trimmed_mean" ∧
        r.used.length = ([sampleA, sampleB, sampleC, sampleD, sampleE] :
          List PriceSample).length - 2 ∧
        r.value = mean (r.used.map (·.value)) ∧
        ∃ lo hi, ([sampleA, sampleB, sampleC, sampleD, sampleE] :
            List PriceSample).Perm (lo :: (r.used ++ [hi])) ∧
          (∀ s ∈ r.used, lo.value ≤ s.value ∧ s.value ≤ hi.value)) :=
  ⟨by decide,
   (C1_aggregate_ladder [sampleA, sampleB, sampleC, sampleD, sampleE]
     "trimmed_mean" (by decide)).1⟩

/-! ### C3: no single-flight coalescing -/

/-- Claim C3 (code behavior at the failing input): with a cold cache, each
of two concurrently handled default BTC-USD requests reads the cache before
either write lands — the code writes the cache only after its own fan-out
has settled and keeps no in-flight coordination object — so each request
launches its own fan-out over all four sources: 8 upstream fetch calls where
the spec's single-flight discipline requires one shared fan-out (4). -/
theorem C3_no_single_flight :
    ((handleAccepted ⟨3, 2000, 60000⟩ ⟨"r1", "alice", 0, 38000, [], ""⟩ none
        none 0 (fun s => some ⟨s, 60000, 0⟩)).map
      (fun r => r.fetched.length)).toOption = some 4 ∧
    ((handleAccepted ⟨3, 2000, 60000⟩ ⟨"r2", "bob", 0, 38000, [], ""⟩ none
        none 0 (fun s => some ⟨s, 60000, 0⟩)).map
      (fun r => r.fetched.length)).toOption = some 4 ∧
    4 + 4 ≠ ALL_SOURCES.length := by
  refine ⟨by decide, by decide, by decide⟩

end Relay
